import Mathlib

/-!
Shallow embedding of the `CarbonMarketplace` Hyperledger Fabric chaincode
(JavaScript, `fabric-contract-api`).  The ledger is modelled as an association
list from string keys to stored values; each contract method becomes a Lean
function from the current ledger and its arguments to a result
(`Except Err String`, the confirmation string or the thrown error) together
with the ordered list of `putState` writes it performed.

Modelling notes, all taken from the source text:
* The source builds every record key and message with SINGLE-QUOTED strings
  such as `'proposal_${proposalId}'`.  Single quotes in JavaScript do not
  interpolate, so the key is the literal ten-plus-character string containing
  a dollar sign and braces, identical for every proposal; the same holds for
  `'auction_${auctionId}'` and `'sale_${saleId}'`.  The embedding uses those
  literal strings (braces written with escapes).
* Numeric method arguments pass through `parseInt` in the source; the
  embedding takes them as `Int`, i.e. as the already-parsed values.
* Credit balances are written with `Number.prototype.toString` and read back
  with `parseInt`; for integers this round-trips, so balances are stored as
  `LVal.num`.  The one place the source stores a non-numeric value on a
  balance key is `buyCredits`, whose seller write is the JavaScript string
  concatenation `sale.seller + totalCost`; that is modelled verbatim as an
  `LVal.str`.  Reading such a value with `parseInt` is modelled by
  `jsParseInt` (decimal `parseInt` semantics, `none` for `NaN`).
* `Date.now()` is passed in as an explicit `now : Int` argument.
* `uuidv4()` is passed in as an explicit fresh-id argument.
* `ctx.clientIdentity.getID()` is passed in as an explicit `caller` argument.
* Reading a key whose stored value has the wrong shape (e.g. a number where a
  JSON sale record is expected) is modelled by the distinguished error
  `Err.typeConfusion`; the source would instead proceed on `undefined`
  fields.  No claim below depends on behaviour in such ill-shaped states.
-/

namespace CarbonMarketplace

/-- Government profile stored by `initLedger` under the key `governmentDetails`. -/
structure Government where
  governmentAddress : String
  governmentName : String
  country : String
  deptName : String
deriving DecidableEq, Repr

/-- Project proposal record, as built by `submitProposal`. -/
structure Proposal where
  id : String
  proposer : String
  projectDescription : String
  carbonReductionTarget : Int
  approved : Bool
  allocatedCredits : Int
deriving DecidableEq, Repr

/-- Auction record, as built by `createAuction`. -/
structure Auction where
  id : String
  totalCredits : Int
  startingBid : Int
  highestBid : Int
  highestBidder : String
  endTime : Int
  ended : Bool
deriving DecidableEq, Repr

/-- Sale record, as built by `createSale`. -/
structure Sale where
  id : String
  creditsForSale : Int
  pricePerCredit : Int
  seller : String
  sold : Bool
deriving DecidableEq, Repr

/-- A value stored in the ledger: a numeric string (credit balance), a plain
string (the seller write of `buyCredits`), or a JSON record. -/
inductive LVal where
  | num (n : Int)
  | str (s : String)
  | gov (g : Government)
  | prop (p : Proposal)
  | auct (a : Auction)
  | sale (s : Sale)
deriving DecidableEq, Repr

/-- The world state: an association list from keys to stored values. -/
abbrev Ledger := List (String × LVal)

/-- Model of `ctx.stub.getState`. -/
def getState : Ledger → String → Option LVal
  | [], _ => none
  | (k, v) :: rest, key => if k = key then some v else getState rest key

/-- Model of `ctx.stub.putState`: overwrite the binding for `key` if present,
otherwise append it. -/
def putState : Ledger → String → LVal → Ledger
  | [], key, v => [(key, v)]
  | (k, w) :: rest, key, v =>
      if k = key then (key, v) :: rest else (k, w) :: putState rest key v

/-- Apply an ordered list of writes to a ledger. -/
def applyWrites (l : Ledger) (ws : List (String × LVal)) : Ledger :=
  ws.foldl (fun acc kv => putState acc kv.1 kv.2) l

/-- JavaScript `parseInt` on a string, decimal case: skip leading whitespace,
read an optional sign and then leading decimal digits; `none` models `NaN`. -/
def jsParseInt (s : String) : Option Int :=
  let cs := s.data.dropWhile (fun c => c = ' ' ∨ c = '\t' ∨ c = '\n' ∨ c = '\r')
  let signAndRest : Int × List Char :=
    match cs with
    | '-' :: rest => (-1, rest)
    | '+' :: rest => (1, rest)
    | _ => (1, cs)
  let ds := signAndRest.2.takeWhile Char.isDigit
  if ds.isEmpty then none
  else some (signAndRest.1 * (ds.foldl (fun a c => a * 10 + (c.toNat - 48)) 0 : Nat))

/-- Result of `parseInt(storedBytes.toString())` on a stored value.
Numeric stores round-trip; JSON records begin with a brace so `parseInt`
yields `NaN` (modelled as `none`). -/
def parseIntLV : LVal → Option Int
  | .num n => some n
  | .str s => jsParseInt s
  | _ => none

/-- The recurring source pattern `let existingCredits = 0; if (bytes &&
bytes.length > 0) existingCredits = parseInt(bytes.toString())`:
an absent key reads as `0`, a present one through `parseInt`. -/
def readCredits (l : Ledger) (key : String) : Option Int :=
  match getState l key with
  | none => some 0
  | some v => parseIntLV v

/-- Store an `Option Int` arithmetic result the way JavaScript
`value.toString()` would: a number, or the string `NaN`. -/
def numOrNaN : Option Int → LVal
  | some n => .num n
  | none => .str "NaN"

/-- JavaScript `a < b` where `a` may be `NaN`: any comparison with `NaN` is
false. -/
def jsLt (a : Option Int) (b : Int) : Bool :=
  match a with
  | some x => decide (x < b)
  | none => false

/-- Errors thrown by the contract (`throw new Error(...)` sites), plus the
modelling-only `typeConfusion` for reads of ill-shaped stored values. -/
inductive Err where
  | notFound
  | alreadyApproved
  | notApproved
  | auctionEnded
  | stillOngoing
  | alreadyEnded
  | alreadySold
  | bidTooLow
  | insufficientCredits
  | typeConfusion
deriving DecidableEq, Repr

/-- The literal key string `'proposal_${proposalId}'` from the source: single
quotes, so `${...}` is NOT interpolated and every proposal uses this one key. -/
def proposalKey : String := "proposal_$\x7bproposalId\x7d"

/-- The literal key string `'auction_${auctionId}'` from the source (not
interpolated). -/
def auctionKey : String := "auction_$\x7bauctionId\x7d"

/-- The literal key string `'sale_${saleId}'` from the source (not
interpolated). -/
def saleKey : String := "sale_$\x7bsaleId\x7d"

/-- The singleton government-details key. -/
def govKey : String := "governmentDetails"

/-- An operation result: the confirmation string or thrown error, together
with the ordered `putState` writes the invocation performed before
returning or throwing. -/
abbrev OpResult := Except Err String × List (String × LVal)

/-- Model of `initLedger(ctx, governmentName, country, deptName)`. -/
def initLedger (caller governmentName country deptName : String) : OpResult :=
  (.ok "Ledger initialized",
   [(govKey, .gov ⟨caller, governmentName, country, deptName⟩)])

/-- Model of `submitProposal(ctx, projectDescription, carbonReductionTarget)`.
`freshId` is the `uuidv4()` value; the storage key is the literal
non-interpolated string `proposalKey`. -/
def submitProposal (caller freshId projectDescription : String)
    (carbonReductionTarget : Int) : OpResult :=
  (.ok "Project proposal $\x7bproposalId\x7d submitted by $\x7bproposer\x7d",
   [(proposalKey,
     .prop ⟨freshId, caller, projectDescription, carbonReductionTarget, false, 0⟩)])

/-- Model of `approveProject(ctx, proposalId, allocatedCredits)`.  The
`proposalId` argument is unused by the lookup because the source key string is
not interpolated. -/
def approveProject (l : Ledger) (proposalId : String) (allocatedCredits : Int) :
    OpResult :=
  match getState l proposalKey with
  | none => (.error .notFound, [])
  | some (.prop p) =>
      if p.approved then (.error .alreadyApproved, [])
      else
        (.ok "Project $\x7bproposalId\x7d approved with $\x7ballocatedCredits\x7d carbon credits allocated",
         [(proposalKey, .prop { p with approved := true, allocatedCredits := allocatedCredits })])
  | some _ => (.error .typeConfusion, [])

/-- Model of `issueCarbonCredits(ctx, proposalId)`: on success, read the
proposer's balance key (default 0), add `allocatedCredits`, write it back.
No issued flag is recorded on the proposal. -/
def issueCarbonCredits (l : Ledger) (proposalId : String) : OpResult :=
  match getState l proposalKey with
  | none => (.error .notFound, [])
  | some (.prop p) =>
      if !p.approved then (.error .notApproved, [])
      else
        let existingCredits := readCredits l p.proposer
        let updatedCredits := existingCredits.map (· + p.allocatedCredits)
        (.ok "Issued $\x7bcreditsToIssue\x7d carbon credits to $\x7bproposer\x7d",
         [(p.proposer, numOrNaN updatedCredits)])
  | some _ => (.error .typeConfusion, [])

/-- Model of `createAuction(ctx, totalCredits, startingBid, auctionDuration)`:
`endTime = Date.now() + duration * 1000`, `highestBid = 0`, empty bidder. -/
def createAuction (freshId : String) (totalCredits startingBid auctionDuration now : Int) :
    OpResult :=
  (.ok "Auction $\x7bauctionId\x7d created",
   [(auctionKey,
     .auct ⟨freshId, totalCredits, startingBid, 0, "", now + auctionDuration * 1000, false⟩)])

/-- The (literal, non-interpolated) confirmation string returned by
`placeBid`. -/
def placeBidMsg : String := "Bid of $\x7bbidAmountInt\x7d placed for auction $\x7bauctionId\x7d"

/-- Model of `placeBid(ctx, auctionId, bidAmount)`. -/
def placeBid (l : Ledger) (caller auctionId : String) (bidAmount now : Int) :
    OpResult :=
  match getState l auctionKey with
  | none => (.error .notFound, [])
  | some (.auct a) =>
      if now > a.endTime then (.error .auctionEnded, [])
      else if bidAmount ≤ a.highestBid ∨ bidAmount < a.startingBid then
        (.error .bidTooLow, [])
      else
        (.ok placeBidMsg,
         [(auctionKey, .auct { a with highestBid := bidAmount, highestBidder := caller })])
  | some _ => (.error .typeConfusion, [])

/-- Model of `endAuction(ctx, auctionId)`.  The source sets
`auction.ended = true` on the in-memory object but never calls `putState` on
the auction key afterwards: the only write is the highest bidder's balance.
The write list below reflects exactly the `putState` calls in the source. -/
def endAuction (l : Ledger) (auctionId : String) (now : Int) : OpResult :=
  match getState l auctionKey with
  | none => (.error .notFound, [])
  | some (.auct a) =>
      if now < a.endTime then (.error .stillOngoing, [])
      else if a.ended then (.error .alreadyEnded, [])
      else
        let existingCredits := readCredits l a.highestBidder
        let updatedCredits := existingCredits.map (· + a.totalCredits)
        (.ok "Auction $\x7bauctionId\x7d ended. $\x7bcreditsToTransfer\x7d carbon credits transferred to $\x7bhighestBidder\x7d",
         [(a.highestBidder, numOrNaN updatedCredits)])
  | some _ => (.error .typeConfusion, [])

/-- The (literal, non-interpolated) confirmation string returned by
`createSale`. -/
def createSaleMsg : String := "Sale $\x7bsaleId\x7d created by $\x7bseller\x7d"

/-- Model of `createSale(ctx, creditsForSale, pricePerCredit)`: read the
seller's balance (default 0, `parseInt` of whatever is stored), throw
`InsufficientCredits` when `existingCredits < creditsForSale` (a comparison
with `NaN` is false), otherwise store the sale record only. -/
def createSale (l : Ledger) (caller freshId : String)
    (creditsForSale pricePerCredit : Int) : OpResult :=
  let existingCredits := readCredits l caller
  if jsLt existingCredits creditsForSale then (.error .insufficientCredits, [])
  else
    (.ok createSaleMsg,
     [(saleKey, .sale ⟨freshId, creditsForSale, pricePerCredit, caller, false⟩)])

/-- Model of `buyCredits(ctx, saleId, creditsToBuy)`.  Writes, in source
order: the buyer's balance (`buyerCredits + creditsToBuy`), the seller key
with the JavaScript string concatenation `sale.seller + totalCost`, and the
updated sale record (decremented, `sold` set exactly when the remaining
credits equal zero). -/
def buyCredits (l : Ledger) (caller saleId : String) (creditsToBuy : Int) :
    OpResult :=
  match getState l saleKey with
  | none => (.error .notFound, [])
  | some (.sale s) =>
      if s.sold then (.error .alreadySold, [])
      else
        let totalCost := creditsToBuy * s.pricePerCredit
        let buyerCredits := readCredits l caller
        let s1 : Sale := { s with creditsForSale := s.creditsForSale - creditsToBuy }
        let s2 : Sale := if s1.creditsForSale = 0 then { s1 with sold := true } else s1
        (.ok "$\x7bcreditsToBuyInt\x7d credits bought from sale $\x7bsaleId\x7d by $\x7bbuyer\x7d",
         [(caller, numOrNaN (buyerCredits.map (· + creditsToBuy))),
          (s.seller, .str (s.seller ++ toString totalCost)),
          (saleKey, .sale s2)])
  | some _ => (.error .typeConfusion, [])

/-- One invocation of any of the nine public contract methods, with all of
its arguments (caller identity, generated id and current time included where
the method uses them). -/
inductive Op where
  | initLedger (caller governmentName country deptName : String)
  | submitProposal (caller freshId projectDescription : String)
      (carbonReductionTarget : Int)
  | approveProject (proposalId : String) (allocatedCredits : Int)
  | issueCarbonCredits (proposalId : String)
  | createAuction (freshId : String)
      (totalCredits startingBid auctionDuration now : Int)
  | placeBid (caller auctionId : String) (bidAmount now : Int)
  | endAuction (auctionId : String) (now : Int)
  | createSale (caller freshId : String) (creditsForSale pricePerCredit : Int)
  | buyCredits (caller saleId : String) (creditsToBuy : Int)
deriving DecidableEq, Repr

/-- Dispatch an operation against the current ledger. -/
def exec (op : Op) (l : Ledger) : OpResult :=
  match op with
  | .initLedger c g co d => initLedger c g co d
  | .submitProposal c f pd t => submitProposal c f pd t
  | .approveProject pid ac => approveProject l pid ac
  | .issueCarbonCredits pid => issueCarbonCredits l pid
  | .createAuction f tc sb dur now => createAuction f tc sb dur now
  | .placeBid c aid amt now => placeBid l c aid amt now
  | .endAuction aid now => endAuction l aid now
  | .createSale c f cfs ppc => createSale l c f cfs ppc
  | .buyCredits c sid ctb => buyCredits l c sid ctb

/-- Ledger after an operation: its writes applied in order. -/
def step (op : Op) (l : Ledger) : Ledger :=
  applyWrites l (exec op l).2

/-- Ledger after a sequence of `placeBid` invocations; each entry carries the
caller identity, the `auctionId` argument, the bid amount and the current
time of that invocation. -/
def runBids (l : Ledger) (bids : List (String × String × Int × Int)) : Ledger :=
  bids.foldl (fun acc b => step (.placeBid b.1 b.2.1 b.2.2.1 b.2.2.2) acc) l

/-- C1: two successive `submitProposal` invocations with distinct freshly
generated ids do NOT store two records under two distinct keys: the source
builds the key with a single-quoted (non-interpolated) string, so both
invocations write the one literal key `proposal_$\x7bproposalId\x7d` and the
second record overwrites the first.  Starting from the empty ledger, after
the two calls the whole ledger holds only the second proposal. -/
theorem submitProposal_second_overwrites_first :
    step (.submitProposal "bob" "id2" "descB" 7)
        (step (.submitProposal "alice" "id1" "descA" 5) []) =
      [(proposalKey, .prop ⟨"id2", "bob", "descB", 7, false, 0⟩)] ∧
    getState (step (.submitProposal "bob" "id2" "descB" 7)
        (step (.submitProposal "alice" "id1" "descA" 5) []))
        proposalKey ≠ some (.prop ⟨"id1", "alice", "descA", 5, false, 0⟩) := by
  decide

/-- C2: in the scenario submit → approve 100 → issue, the proposer's balance
is 100; but a second `issueCarbonCredits` invocation is NOT rejected (no
issued flag exists), it succeeds and leaves the balance at 200. -/
theorem issueCarbonCredits_double_mint :
    getState (step (.issueCarbonCredits "p1")
        (step (.approveProject "p1" 100)
          (step (.submitProposal "alice" "p1" "solar farm" 50) [])))
        "alice" = some (.num 100) ∧
    (exec (.issueCarbonCredits "p1")
        (step (.issueCarbonCredits "p1")
          (step (.approveProject "p1" 100)
            (step (.submitProposal "alice" "p1" "solar farm" 50) [])))).1.isOk = true ∧
    getState (step (.issueCarbonCredits "p1")
        (step (.issueCarbonCredits "p1")
          (step (.approveProject "p1" 100)
            (step (.submitProposal "alice" "p1" "solar farm" 50) []))))
        "alice" = some (.num 200) := by
  decide

/-- C3: on a successful `buyCredits`, the seller's balance record is NOT
read-increased-written: the source writes the JavaScript string concatenation
`sale.seller + totalCost` to the seller key.  With seller balance 50, price 7
and 3 credits bought (totalCost 21), the seller key ends up holding the
string `sellerX21`, not the number 71. -/
theorem buyCredits_seller_write_is_string_concat :
    (exec (.buyCredits "buyer" "sid" 3)
        [(saleKey, .sale ⟨"s1", 10, 7, "sellerX", false⟩),
         ("sellerX", .num 50)]).1.isOk = true ∧
    getState (step (.buyCredits "buyer" "sid" 3)
        [(saleKey, .sale ⟨"s1", 10, 7, "sellerX", false⟩),
         ("sellerX", .num 50)])
        "sellerX" = some (.str "sellerX21") ∧
    getState (step (.buyCredits "buyer" "sid" 3)
        [(saleKey, .sale ⟨"s1", 10, 7, "sellerX", false⟩),
         ("sellerX", .num 50)])
        "sellerX" ≠ some (.num 71) := by
  decide

/-- C5: a CreditBalance key CAN go negative: `approveProject` performs no
non-negativity check, so approving with −100 and then issuing writes −100 as
the proposer's balance. -/
theorem negative_approval_drives_balance_negative :
    getState (step (.issueCarbonCredits "p1")
        (step (.approveProject "p1" (-100))
          (step (.submitProposal "alice" "p1" "d" 5) [])))
        "alice" = some (.num (-100)) ∧ (-100 : Int) < 0 := by
  decide

/-- C8: after a first successful `endAuction`, a second invocation is NOT
rejected with `AlreadyEnded`: the source never writes the updated auction
record back (`auction.ended = true` is only set in memory), so the stored
`ended` flag stays false and the second call succeeds and credits
`totalCredits` to the highest bidder again (500 → 1000). -/
theorem endAuction_second_call_succeeds_again :
    getState (step (.endAuction "a1" 2000)
        (step (.placeBid "bob" "a1" 60 500)
          (step (.createAuction "a1" 500 50 1 0) [])))
        "bob" = some (.num 500) ∧
    (exec (.endAuction "a1" 3000)
        (step (.endAuction "a1" 2000)
          (step (.placeBid "bob" "a1" 60 500)
            (step (.createAuction "a1" 500 50 1 0) [])))).1.isOk = true ∧
    getState (step (.endAuction "a1" 3000)
        (step (.endAuction "a1" 2000)
          (step (.placeBid "bob" "a1" 60 500)
            (step (.createAuction "a1" 500 50 1 0) []))))
        "bob" = some (.num 1000) := by
  decide

/-- Writing then reading the same key yields the written value. -/
theorem getState_putState_self (l : Ledger) (k : String) (v : LVal) :
    getState (putState l k v) k = some v := by
  induction l with
  | nil => simp [putState, getState]
  | cons kv rest ih =>
      obtain ⟨k1, w⟩ := kv
      by_cases h : k1 = k
      · simp [putState, getState, h]
      · simp [putState, getState, h, ih]

/-- Writing one key does not change reads of a different key. -/
theorem getState_putState_ne (l : Ledger) (k kq : String) (v : LVal)
    (h : kq ≠ k) :
    getState (putState l k v) kq = getState l kq := by
  induction l with
  | nil => simp [putState, getState, Ne.symm h]
  | cons kv rest ih =>
      obtain ⟨k1, w⟩ := kv
      by_cases h1 : k1 = k
      · subst h1
        simp [putState, getState, Ne.symm h]
      · by_cases h2 : k1 = kq
        · simp [putState, getState, h1, h2, h]
        · simp [putState, getState, h1, h2, h, ih]

/-- Applying no writes leaves the ledger unchanged. -/
theorem applyWrites_nil (l : Ledger) : applyWrites l [] = l := rfl

/-- Writes apply in order, head first. -/
theorem applyWrites_cons (l : Ledger) (k : String) (v : LVal)
    (ws : List (String × LVal)) :
    applyWrites l ((k, v) :: ws) = applyWrites (putState l k v) ws := rfl

/-- C4 counterexample: the claim quantifies over ANY integer `creditsToBuy`
argument, but `buyCredits` never validates it, so a negative amount makes
`creditsForSale` increase: buying −5 from a sale of 10 leaves 15 for sale. -/
theorem buyCredits_negative_amount_increases_creditsForSale :
    getState (step (.buyCredits "buyer" "sid" (-5))
        [(saleKey, .sale ⟨"s1", 10, 2, "sellerX", false⟩)]) saleKey =
      some (.sale ⟨"s1", 15, 2, "sellerX", false⟩) ∧ (10 : Int) < 15 := by
  decide

/-- C4 amended: for every `buyCredits` call with a NON-NEGATIVE
`creditsToBuy` argument on a sale record, the stored sale's `creditsForSale`
does not increase; and (for any amount) `sold` becomes true only if it was
already true or the remaining `creditsForSale` is exactly zero. -/
theorem buyCredits_creditsForSale_monotone (l : Ledger) (caller saleId : String)
    (n : Int) (s : Sale)
    (hs : getState l saleKey = some (.sale s)) (hn : 0 ≤ n) :
    ∃ s2 : Sale,
      getState (step (.buyCredits caller saleId n) l) saleKey = some (.sale s2) ∧
      s2.creditsForSale ≤ s.creditsForSale ∧
      (s2.sold = true → s.sold = true ∨ s2.creditsForSale = 0) := by
  by_cases hsold : s.sold
  · refine ⟨s, ?_, le_refl _, fun _ => Or.inl hsold⟩
    simp [step, exec, buyCredits, hs, hsold, applyWrites_nil]
  · by_cases hz : s.creditsForSale - n = 0
    · refine ⟨{ s with creditsForSale := s.creditsForSale - n, sold := true }, ?_,
        (by show s.creditsForSale - n ≤ s.creditsForSale; omega), fun _ => Or.inr hz⟩
      simp [step, exec, buyCredits, hs, hsold, hz, applyWrites_cons, applyWrites_nil,
        getState_putState_self]
    · refine ⟨{ s with creditsForSale := s.creditsForSale - n }, ?_,
        (by show s.creditsForSale - n ≤ s.creditsForSale; omega), ?_⟩
      · simp [step, exec, buyCredits, hs, hsold, hz, applyWrites_cons, applyWrites_nil,
          getState_putState_self]
      · intro hcontra
        simp at hcontra
        exact absurd hcontra hsold

/-- C4 witness: the amended monotonicity theorem applied to a concrete sale
of 10 credits and a purchase of 3. -/
theorem buyCredits_creditsForSale_monotone_witness :
    ∃ s2 : Sale,
      getState (step (.buyCredits "b" "sid" 3)
          [(saleKey, .sale ⟨"s1", 10, 2, "x", false⟩)]) saleKey = some (.sale s2) ∧
      s2.creditsForSale ≤ 10 ∧
      (s2.sold = true → false = true ∨ s2.creditsForSale = 0) :=
  buyCredits_creditsForSale_monotone _ "b" "sid" 3 ⟨"s1", 10, 2, "x", false⟩
    (by decide) (by decide)

/-- One `placeBid` invocation, successful or not, keeps an auction record at
the auction key, never lowers `highestBid`, preserves `startingBid`, and if it
changed `highestBid` the new value is at least `startingBid`. -/
theorem placeBid_step_evolution (l : Ledger) (c aid : String) (amt now : Int)
    (a : Auction) (ha : getState l auctionKey = some (.auct a)) :
    ∃ a2 : Auction,
      getState (step (.placeBid c aid amt now) l) auctionKey = some (.auct a2) ∧
      a.highestBid ≤ a2.highestBid ∧ a2.startingBid = a.startingBid ∧
      (a2.highestBid ≠ a.highestBid → a.startingBid ≤ a2.highestBid) := by
  by_cases h1 : now > a.endTime
  · refine ⟨a, ?_, le_refl _, rfl, fun hne => absurd rfl hne⟩
    simp [step, exec, placeBid, ha, h1, applyWrites_nil]
  · by_cases h2 : amt ≤ a.highestBid ∨ amt < a.startingBid
    · refine ⟨a, ?_, le_refl _, rfl, fun hne => absurd rfl hne⟩
      simp [step, exec, placeBid, ha, h1, h2, applyWrites_nil]
    · refine ⟨{ a with highestBid := amt, highestBidder := c }, ?_, ?_, rfl, ?_⟩
      · simp [step, exec, placeBid, ha, h1, h2, applyWrites_cons, applyWrites_nil,
          getState_putState_self]
      · show a.highestBid ≤ amt
        omega
      · intro _
        show a.startingBid ≤ amt
        omega

/-- C6: over any sequence of `placeBid` invocations on the stored auction,
`highestBid` never decreases, `startingBid` is preserved, and once any bid
has changed `highestBid` (i.e. after the first successful bid, since failed
bids write nothing) the current `highestBid` is at least `startingBid`. -/
theorem placeBid_highestBid_monotone (bids : List (String × String × Int × Int))
    (l : Ledger) (a0 a1 : Auction)
    (h0 : getState l auctionKey = some (.auct a0))
    (h1 : getState (runBids l bids) auctionKey = some (.auct a1)) :
    a0.highestBid ≤ a1.highestBid ∧ a1.startingBid = a0.startingBid ∧
    (a1.highestBid ≠ a0.highestBid → a0.startingBid ≤ a1.highestBid) := by
  induction bids generalizing l a0 with
  | nil =>
      have heq : a1 = a0 := by
        rw [show runBids l [] = l from rfl, h0] at h1
        exact (LVal.auct.inj (Option.some.inj h1)).symm
      subst heq
      exact ⟨le_refl _, rfl, fun hne => absurd rfl hne⟩
  | cons b bs ih =>
      obtain ⟨a2, h2, hle, hst, himp⟩ :=
        placeBid_step_evolution l b.1 b.2.1 b.2.2.1 b.2.2.2 a0 h0
      rw [show runBids l (b :: bs) =
        runBids (step (.placeBid b.1 b.2.1 b.2.2.1 b.2.2.2) l) bs from rfl] at h1
      obtain ⟨ihle, ihst, ihimp⟩ := ih _ a2 h2 h1
      refine ⟨le_trans hle ihle, by rw [ihst, hst], ?_⟩
      intro hne
      by_cases hq : a1.highestBid = a2.highestBid
      · have hne2 : a2.highestBid ≠ a0.highestBid := by rw [← hq]; exact hne
        have := himp hne2
        omega
      · have := ihimp hq
        rw [hst] at this
        exact this

/-- C6 witness: a single successful bid of 60 at time 10 on an auction with
starting bid 50 and no prior bid. -/
theorem placeBid_highestBid_monotone_witness :
    (0 : Int) ≤ (60 : Int) ∧ (50 : Int) = (50 : Int) ∧
    ((60 : Int) ≠ (0 : Int) → (50 : Int) ≤ (60 : Int)) :=
  placeBid_highestBid_monotone [("bob", "x", 60, 10)]
    [(auctionKey, .auct ⟨"a1", 500, 50, 0, "", 1000, false⟩)]
    ⟨"a1", 500, 50, 0, "", 1000, false⟩ ⟨"a1", 500, 50, 60, "bob", 1000, false⟩
    (by decide) (by decide)

/-- C7: exact case analysis of `placeBid` over the stored auction key: absent
key gives `NotFound`; with a stored auction, `now > endTime` gives
`AuctionEnded`; otherwise a bid `≤ highestBid` or `< startingBid` gives
`BidTooLow`; otherwise it succeeds, overwriting `highestBid` with the bid and
`highestBidder` with the caller.  The branches are exhaustive and mutually
exclusive, so each error occurs exactly under its stated condition. -/
theorem placeBid_cases (l : Ledger) (caller auctionId : String)
    (amount now : Int) :
    (getState l auctionKey = none →
      placeBid l caller auctionId amount now = (.error .notFound, [])) ∧
    (∀ a : Auction, getState l auctionKey = some (.auct a) →
      (now > a.endTime →
        placeBid l caller auctionId amount now = (.error .auctionEnded, [])) ∧
      (now ≤ a.endTime → (amount ≤ a.highestBid ∨ amount < a.startingBid) →
        placeBid l caller auctionId amount now = (.error .bidTooLow, [])) ∧
      (now ≤ a.endTime → a.highestBid < amount → a.startingBid ≤ amount →
        placeBid l caller auctionId amount now =
          (.ok placeBidMsg,
           [(auctionKey,
             .auct { a with highestBid := amount, highestBidder := caller })]))) := by
  refine ⟨fun h => by simp [placeBid, h],
    fun a ha => ⟨fun h1 => by simp [placeBid, ha, h1],
      fun h1 h2 => by simp [placeBid, ha, h2, not_lt.mpr h1],
      fun h1 h2 h3 => ?_⟩⟩
  have hn1 : ¬ now > a.endTime := not_lt.mpr h1
  have hn2 : ¬ (amount ≤ a.highestBid ∨ amount < a.startingBid) := by omega
  simp [placeBid, ha, hn1, hn2]

/-- C7 witness: the success branch of the case analysis at a concrete
auction, bidding 60 at time 10 against starting bid 50 and highest bid 0. -/
theorem placeBid_cases_witness :
    placeBid [(auctionKey, .auct ⟨"a1", 500, 50, 0, "", 1000, false⟩)]
        "bob" "x" 60 10 =
      (.ok placeBidMsg,
       [(auctionKey, .auct ⟨"a1", 500, 50, 60, "bob", 1000, false⟩)]) :=
  ((placeBid_cases [(auctionKey, .auct ⟨"a1", 500, 50, 0, "", 1000, false⟩)]
      "bob" "x" 60 10).2 ⟨"a1", 500, 50, 0, "", 1000, false⟩ (by decide)).2.2
    (by decide) (by decide) (by decide)

/-- C9: `createSale` throws `InsufficientCredits` exactly when the seller's
read balance is below the requested amount; on success the only write is the
sale record, so the seller's balance key is left unchanged (no debit at
listing time). -/
theorem createSale_spec (l : Ledger) (caller freshId : String)
    (creditsForSale pricePerCredit b : Int)
    (hb : readCredits l caller = some b) :
    (b < creditsForSale →
      createSale l caller freshId creditsForSale pricePerCredit =
        (.error .insufficientCredits, [])) ∧
    (creditsForSale ≤ b →
      createSale l caller freshId creditsForSale pricePerCredit =
        (.ok createSaleMsg,
         [(saleKey, .sale ⟨freshId, creditsForSale, pricePerCredit, caller, false⟩)]) ∧
      (caller ≠ saleKey →
        getState (step (.createSale caller freshId creditsForSale pricePerCredit) l)
            caller = getState l caller)) := by
  constructor
  · intro h
    simp [createSale, jsLt, hb, h]
  · intro h
    have hlt : ¬ b < creditsForSale := not_lt.mpr h
    constructor
    · simp [createSale, jsLt, hb, hlt]
    · intro hne
      have hstep : step (.createSale caller freshId creditsForSale pricePerCredit) l =
          putState l saleKey (.sale ⟨freshId, creditsForSale, pricePerCredit, caller, false⟩) := by
        simp [step, exec, createSale, jsLt, hb, hlt, applyWrites_cons, applyWrites_nil]
      rw [hstep]
      exact getState_putState_ne l saleKey caller _ hne

/-- C9 witness: a seller holding 5 credits lists 3 of them; the sale record
is stored and the seller's balance key still reads 5. -/
theorem createSale_spec_witness :
    createSale [("alice", .num 5)] "alice" "f1" 3 2 =
      (.ok createSaleMsg, [(saleKey, .sale ⟨"f1", 3, 2, "alice", false⟩)]) :=
  ((createSale_spec [("alice", .num 5)] "alice" "f1" 3 2 5 (by decide)).2
    (by decide)).1

/-- Every operation either succeeds or performed no write: each `throw` in
the source occurs before any `putState` of that method. -/
theorem exec_ok_or_no_writes (op : Op) (l : Ledger) :
    (exec op l).1.isOk = true ∨ (exec op l).2 = [] := by
  cases op <;>
    simp only [exec, initLedger, submitProposal, approveProject, issueCarbonCredits,
      createAuction, placeBid, endAuction, createSale, buyCredits] <;>
    (repeat' split) <;>
    simp [Except.isOk, Except.toBool]

/-- C10: whenever an operation fails with an error, it performed no ledger
write at all, so the ledger after the failed invocation is exactly the ledger
before it. -/
theorem exec_error_no_writes (op : Op) (l : Ledger) (e : Err)
    (h : (exec op l).1 = .error e) :
    (exec op l).2 = [] ∧ step op l = l := by
  rcases exec_ok_or_no_writes op l with hok | hw
  · rw [h] at hok
    simp [Except.isOk, Except.toBool] at hok
  · exact ⟨hw, by simp [step, hw, applyWrites_nil]⟩

/-- C10 witness: `approveProject` on the empty ledger fails with `NotFound`
and leaves the ledger empty. -/
theorem exec_error_no_writes_witness :
    (exec (.approveProject "p7" 5) []).2 = [] ∧
    step (.approveProject "p7" 5) [] = [] :=
  exec_error_no_writes (.approveProject "p7" 5) [] .notFound rfl

end CarbonMarketplace
